import Mathlib

/-!
Verification of the reconciliation core of `route53-ip-update` (src/update.rs,
with supporting types from src/config.rs, src/ttl.rs, src/error.rs).

The Rust code is shallowly embedded: network replies (record-set pages,
change-status replies) become explicit input lists, `HashSet<IpAddr>` becomes a
duplicate-free list with set-equality comparison, and fallible paths return
`Except`.  The `.unwrap()` panics on pagination cursors are modelled as a
distinguished result constructor.
-/

namespace Route53

/-! ## Data model (mirrors aws_sdk_route53 model types and src/config.rs) -/

/-- IP addresses: `IpAddr` from the Rust standard library, restricted to the
structure observable through parsing and display.  An IPv6 address is its
eight 16-bit groups. -/
inductive IpAddr where
  | v4 (a b c d : Nat)
  | v6 (groups : List Nat)
deriving DecidableEq, Repr

/-- `RrType` from aws_sdk_route53; the code matches on A, Aaaa, Cname and a
catch-all, so the remaining concrete variants are collapsed into samples plus
the SDK's `Unknown` payload case. -/
inductive RrType where
  | a
  | aaaa
  | cname
  | ns
  | soa
  | txt
  | unknown (raw : String)
deriving DecidableEq, Repr

/-- `ResourceRecord`: a single literal value (optional in the SDK model). -/
structure ResourceRecord where
  value : Option String
deriving DecidableEq, Repr

/-- `ResourceRecordSet`, restricted to the fields the program reads or sets. -/
structure ResourceRecordSet where
  name : Option String
  type : Option RrType
  ttl : Option Int
  resource_records : Option (List ResourceRecord)
  set_identifier : Option String
deriving DecidableEq, Repr

/-- `ChangeAction` from aws_sdk_route53. -/
inductive ChangeAction where
  | create
  | delete
  | upsert
deriving DecidableEq, Repr

/-- `Change`: the code always sets both builder fields, so they are modelled
as present. -/
structure Change where
  action : ChangeAction
  resource_record_set : ResourceRecordSet
deriving DecidableEq, Repr

/-- `ChangeStatus` from aws_sdk_route53. -/
inductive ChangeStatus where
  | pending
  | insync
  | unknown (raw : String)
deriving DecidableEq, Repr

/-- `ChangeInfo`, restricted to the fields the program reads. -/
structure ChangeInfo where
  id : Option String
  status : Option ChangeStatus
deriving DecidableEq, Repr

/-- `Route53IpUpdateError` from src/error.rs. -/
inductive Route53IpUpdateError where
  | invalidConfig (messages : List String)
  | invalidIpAddr (s : String)
  | invalidQueryAddressType (s : String)
  | invalidTtl (s : String)
  | missingExpectedAwsReplyField (field : String)
  | unexpectedRoute53Status (status : String)
  | unknownConfigFileExt (ext : Option String)
deriving DecidableEq, Repr

/-- `Ttl` from src/ttl.rs: a wrapper around an `i64` second count. -/
structure Ttl where
  seconds : Int
deriving DecidableEq, Repr

/-- `DEFAULT_TTL` from src/update.rs line 18: 300 seconds. -/
def DEFAULT_TTL : Ttl := ⟨300⟩

/-- `HostnameConfig` from src/config.rs. -/
inductive HostnameConfig where
  | hostnameOnly (hostname : String)
  | hostnameAndTtl (hostname : String) (ttl : Ttl)
deriving DecidableEq, Repr

/-- `HostnameConfig::get_hostname`. -/
def HostnameConfig.get_hostname : HostnameConfig → String
  | .hostnameOnly h => h
  | .hostnameAndTtl h _ => h

/-- `HostnameConfig::get_ttl`. -/
def HostnameConfig.get_ttl : HostnameConfig → Option Ttl
  | .hostnameOnly _ => none
  | .hostnameAndTtl _ t => some t

/-! ## IP address parsing (`value.parse::<IpAddr>()` in src/update.rs line 315)

Rust's `IpAddr::from_str` first tries an IPv4 dotted-quad, then an IPv6
literal (groups of 1-4 hex digits, one optional `::` compression, optional
embedded dotted-quad tail). -/

/-- Split a character list on a separator character (the behaviour of
`str.split('.')` / `splitn(':')` on the characters of the string). -/
def splitOnChar (c : Char) : List Char → List (List Char)
  | [] => [[]]
  | x :: rest =>
    if x = c then [] :: splitOnChar c rest
    else
      match splitOnChar c rest with
      | h :: t => (x :: h) :: t
      | [] => [[x]]

/-- Split a character list on the two-character separator `::`, leftmost
match first. -/
def splitOnColonColon : List Char → List (List Char)
  | [] => [[]]
  | ':' :: ':' :: rest => [] :: splitOnColonColon rest
  | x :: rest =>
    match splitOnColonColon rest with
    | h :: t => (x :: h) :: t
    | [] => [[x]]

/-- One decimal octet of a dotted quad: digits only, no leading zero, ≤ 255. -/
def parseDecOctet (l : List Char) : Option Nat :=
  if l.isEmpty then none
  else if l.length > 1 && l.headD ' ' == '0' then none
  else if !l.all Char.isDigit then none
  else
    let n := l.foldl (fun acc c => acc * 10 + (c.toNat - 48)) 0
    if n ≤ 255 then some n else none

/-- `Ipv4Addr::from_str`, over the characters of the literal. -/
def parseIpv4Chars (l : List Char) : Option IpAddr :=
  match splitOnChar '.' l with
  | [a, b, c, d] =>
    match parseDecOctet a, parseDecOctet b, parseDecOctet c, parseDecOctet d with
    | some a, some b, some c, some d => some (.v4 a b c d)
    | _, _, _, _ => none
  | _ => none

/-- `Ipv4Addr::from_str`. -/
def parse_ipv4 (s : String) : Option IpAddr :=
  parseIpv4Chars s.toList

/-- Value of one hex digit, upper or lower case. -/
def hexDigitVal (c : Char) : Option Nat :=
  if '0' ≤ c ∧ c ≤ '9' then some (c.toNat - 48)
  else if 'a' ≤ c ∧ c ≤ 'f' then some (c.toNat - 87)
  else if 'A' ≤ c ∧ c ≤ 'F' then some (c.toNat - 55)
  else none

/-- One IPv6 group: one to four hex digits. -/
def parseHexGroup (l : List Char) : Option Nat :=
  if l.length = 0 ∨ l.length > 4 then none
  else
    l.foldl
      (fun acc c =>
        match acc, hexDigitVal c with
        | some a, some v => some (a * 16 + v)
        | _, _ => none)
      (some 0)

/-- A colon-separated run of IPv6 groups; when `allowV4` the final element may
be an embedded dotted quad contributing two groups. -/
def parseGroupList (allowV4 : Bool) : List (List Char) → Option (List Nat)
  | [] => some []
  | [last] =>
    match parseHexGroup last with
    | some g => some [g]
    | none =>
      if allowV4 then
        match parseIpv4Chars last with
        | some (.v4 a b c d) => some [a * 256 + b, c * 256 + d]
        | _ => none
      else none
  | p :: rest =>
    match parseHexGroup p, parseGroupList allowV4 rest with
    | some g, some gs => some (g :: gs)
    | _, _ => none

/-- One side of a (possibly `::`-compressed) IPv6 literal. -/
def parseGroups (allowV4 : Bool) (l : List Char) : Option (List Nat) :=
  if l.isEmpty then some []
  else parseGroupList allowV4 (splitOnChar ':' l)

/-- `Ipv6Addr::from_str`. -/
def parse_ipv6 (s : String) : Option IpAddr :=
  match splitOnColonColon s.toList with
  | [whole] =>
    match parseGroups true whole with
    | some gs => if gs.length = 8 then some (.v6 gs) else none
    | none => none
  | [pre, post] =>
    match parseGroups false pre, parseGroups true post with
    | some g1, some g2 =>
      if g1.length + g2.length ≤ 7 then
        some (.v6 (g1 ++ List.replicate (8 - g1.length - g2.length) 0 ++ g2))
      else none
    | _, _ => none
  | _ => none

/-- `IpAddr::from_str`: IPv4 first, then IPv6. -/
def parseIpAddr (s : String) : Option IpAddr :=
  match parse_ipv4 s with
  | some ip => some ip
  | none => parse_ipv6 s

/-! ## IP address display (`ip.to_string()` in src/update.rs) -/

/-- One lower-case hex digit. -/
def hexDigitChar (n : Nat) : Char :=
  if n < 10 then Char.ofNat (48 + n) else Char.ofNat (87 + n)

/-- Hex rendering accumulator. -/
def natToHexAux (n : Nat) (acc : String) : String :=
  if h : n = 0 then acc
  else natToHexAux (n / 16) (String.singleton (hexDigitChar (n % 16)) ++ acc)
termination_by n
decreasing_by exact Nat.div_lt_self (Nat.pos_of_ne_zero h) (by omega)

/-- Lower-case hex without leading zeros, as Rust's `{:x}`. -/
def natToHex (n : Nat) : String :=
  if n = 0 then "0" else natToHexAux n ""

/-- Length of the zero-group run starting at the head. -/
def runLenFrom : List Nat → Nat
  | [] => 0
  | g :: rest => if g = 0 then 1 + runLenFrom rest else 0

/-- First longest zero-group run `(start, length)`. -/
def bestRun : List Nat → Nat → Nat × Nat
  | [], _ => (0, 0)
  | l@(_ :: rest), i =>
    let here := runLenFrom l
    let later := bestRun rest (i + 1)
    if here ≥ later.2 then (i, here) else later

/-- Join groups with colons. -/
def joinColon (gs : List Nat) : String :=
  String.intercalate ":" (gs.map natToHex)

/-- Render a dotted quad. -/
def v4String (a b c d : Nat) : String :=
  toString a ++ "." ++ toString b ++ "." ++ toString c ++ "." ++ toString d

/-- `Display` for `Ipv6Addr`: the IPv4-mapped special case, else compression
of the first longest zero run of length at least two. -/
def ipv6ToString (gs : List Nat) : String :=
  match gs with
  | [0, 0, 0, 0, 0, 65535, hi, lo] =>
    "::ffff:" ++ v4String (hi / 256) (hi % 256) (lo / 256) (lo % 256)
  | _ =>
    let r := bestRun gs 0
    if r.2 ≥ 2 then
      joinColon (gs.take r.1) ++ "::" ++ joinColon (gs.drop (r.1 + r.2))
    else joinColon gs

/-- `ip.to_string()`. -/
def ipToString : IpAddr → String
  | .v4 a b c d => v4String a b c d
  | .v6 gs => ipv6ToString gs

/-! ## `HashSet<IpAddr>` (src/update.rs)

A Rust `HashSet` compares by set equality, inserts with deduplication, and
iterates in an unspecified order; it is modelled as a duplicate-free list
whose order stands for one iteration order. -/

/-- The contents of a `HashSet<IpAddr>`. -/
abbrev IpSet := List IpAddr

/-- `HashSet::insert`. -/
def ipSetInsert (s : IpSet) (ip : IpAddr) : IpSet :=
  if (s : List IpAddr).contains ip then s else (s : List IpAddr) ++ [ip]

/-- `HashSet::is_empty`. -/
def ipSetIsEmpty (s : IpSet) : Bool :=
  (s : List IpAddr).isEmpty

/-- `HashSet == HashSet`: equality as sets. -/
def eqIpSet (a b : IpSet) : Bool :=
  (a : List IpAddr).all (fun x => (b : List IpAddr).contains x) &&
    (b : List IpAddr).all (fun x => (a : List IpAddr).contains x)

/-- `desired.iter().map(|ip| ResourceRecord::builder().value(ip.to_string()).build()).collect()`
(src/update.rs lines 119-122 and friends). -/
def ipSetRecords (s : IpSet) : List ResourceRecord :=
  (s : List IpAddr).map (fun ip => ⟨some (ipToString ip)⟩)

/-! ## `get_ipaddrs_from_rrs` (src/update.rs lines 310-325) -/

/-- The loop body of `get_ipaddrs_from_rrs`: records with no value are
skipped; a value that fails `parse::<IpAddr>()` aborts with `InvalidIpAddr`. -/
def collectIpaddrs (acc : IpSet) : List ResourceRecord → Except Route53IpUpdateError IpSet
  | [] => .ok acc
  | rr :: rest =>
    match rr.value with
    | none => collectIpaddrs acc rest
    | some v =>
      match parseIpAddr v with
      | some ip => collectIpaddrs (ipSetInsert acc ip) rest
      | none => .error (.invalidIpAddr v)

/-- `get_ipaddrs_from_rrs`. -/
def get_ipaddrs_from_rrs (rrs : ResourceRecordSet) : Except Route53IpUpdateError IpSet :=
  match rrs.resource_records with
  | none => .ok ([] : List IpAddr)
  | some records => collectIpaddrs ([] : List IpAddr) records

/-! ## The hostname diff engine (`get_changes_for_hostname`,
src/update.rs lines 78-212)

The record sets, fetched over the network in the source, become an explicit
input list; everything after the fetch is translated statement by
statement. -/

/-- The mutable state of the loop in `get_changes_for_hostname`:
`desired_ipv4_rrs_seen`, `desired_ipv6_rrs_seen`, and the accumulated
`changes` vector. -/
structure DiffState where
  seen4 : Bool
  seen6 : Bool
  changes : List Change
deriving DecidableEq, Repr

/-- A `Delete` change wrapping an existing record set. -/
def deleteChange (rrs : ResourceRecordSet) : Change :=
  ⟨.delete, rrs⟩

/-- The fresh record set built for an in-pass or trailing `Upsert`
(src/update.rs lines 123-128, 157-162, 185-190, 199-204). -/
def freshRrs (hostname : String) (t : RrType) (ttl : Int) (records : List ResourceRecord) :
    ResourceRecordSet :=
  { name := some hostname
    type := some t
    ttl := some ttl
    resource_records := some records
    set_identifier := none }

/-- The `Upsert` change replacing the managed A record. -/
def upsertChangeA (hostname : String) (ttl : Int) (d4 : IpSet) : Change :=
  ⟨.upsert, freshRrs hostname .a ttl (ipSetRecords d4)⟩

/-- The `Upsert` change replacing the managed AAAA record. -/
def upsertChangeAaaa (hostname : String) (ttl : Int) (d6 : IpSet) : Change :=
  ⟨.upsert, freshRrs hostname .aaaa ttl (ipSetRecords d6)⟩

/-- The `for rrs in record_sets` loop of `get_changes_for_hostname`
(src/update.rs lines 99-181). -/
def processRrs (hostname : String) (d4 d6 : IpSet) (ttl : Int) :
    DiffState → List ResourceRecordSet → Except Route53IpUpdateError DiffState
  | st, [] => .ok st
  | st, rrs :: rest =>
    match rrs.type with
    | none => .error (.missingExpectedAwsReplyField "Type")
    | some .a =>
      match get_ipaddrs_from_rrs rrs with
      | .error e => .error e
      | .ok existing4 =>
        if rrs.set_identifier = none ∧ eqIpSet existing4 d4 = true ∧ rrs.ttl = some ttl then
          processRrs hostname d4 d6 ttl { st with seen4 := true } rest
        else if st.seen4 || ipSetIsEmpty d4 || rrs.set_identifier.isSome then
          processRrs hostname d4 d6 ttl
            { st with changes := st.changes ++ [deleteChange rrs] } rest
        else
          processRrs hostname d4 d6 ttl
            { st with seen4 := true, changes := st.changes ++ [upsertChangeA hostname ttl d4] }
            rest
    | some .aaaa =>
      match get_ipaddrs_from_rrs rrs with
      | .error e => .error e
      | .ok existing6 =>
        if rrs.set_identifier = none ∧ eqIpSet existing6 d6 = true ∧ rrs.ttl = some ttl then
          processRrs hostname d4 d6 ttl { st with seen6 := true } rest
        else if st.seen6 || ipSetIsEmpty d6 || rrs.set_identifier.isSome then
          processRrs hostname d4 d6 ttl
            { st with changes := st.changes ++ [deleteChange rrs] } rest
        else
          processRrs hostname d4 d6 ttl
            { st with seen6 := true, changes := st.changes ++ [upsertChangeAaaa hostname ttl d6] }
            rest
    | some .cname =>
      processRrs hostname d4 d6 ttl { st with changes := st.changes ++ [deleteChange rrs] } rest
    | some _ =>
      processRrs hostname d4 d6 ttl st rest

/-- The effective TTL computed in src/update.rs line 87:
`hostname_config.get_ttl().unwrap_or(default_ttl.unwrap_or(DEFAULT_TTL))`. -/
def desiredTtlOf (hostname_config : HostnameConfig) (default_ttl : Option Ttl) : Int :=
  ((hostname_config.get_ttl).getD (default_ttl.getD DEFAULT_TTL)).seconds

/-- `get_changes_for_hostname`, with the fetched record sets as an explicit
argument. -/
def get_changes_for_hostname (hostname_config : HostnameConfig)
    (record_sets : List ResourceRecordSet) (desired_ipv4 desired_ipv6 : IpSet)
    (default_ttl : Option Ttl) : Except Route53IpUpdateError (List Change) :=
  let hostname := hostname_config.get_hostname
  let desired_ttl := desiredTtlOf hostname_config default_ttl
  match processRrs hostname desired_ipv4 desired_ipv6 desired_ttl
      ⟨ipSetIsEmpty desired_ipv4, ipSetIsEmpty desired_ipv6, []⟩ record_sets with
  | .error e => .error e
  | .ok st =>
    let changes := st.changes
    let changes :=
      if !st.seen4 then
        changes ++ [upsertChangeA hostname (desiredTtlOf hostname_config default_ttl) desired_ipv4]
      else changes
    let changes :=
      if !st.seen6 then
        changes ++ [upsertChangeAaaa hostname (desiredTtlOf hostname_config default_ttl) desired_ipv6]
      else changes
    .ok changes

/-! ## `update_zone` (src/update.rs lines 20-76) -/

/-- The zone-level default TTL resolution of src/update.rs lines 30-33. -/
def updateZoneDefaultTtl (zone_ttl default_ttl : Option Ttl) : Option Ttl :=
  match zone_ttl with
  | some ttl => some ttl
  | none => default_ttl

/-- Outcome of `update_zone`: `submitted` is the only outcome that invokes
`update_route53_zone` (batch build, submission, propagation polling);
`noChanges` is the early success return of lines 61-64. -/
inductive ZoneOutcome where
  | failed (e : Route53IpUpdateError)
  | noChanges
  | submitted (changes : List Change)
deriving DecidableEq, Repr

/-- The result-merging loop of `update_zone` (lines 51-64), over the
per-hostname diff results in completion order: fail-fast on the first error,
then skip submission when the aggregate is empty. -/
def updateZoneAggregate (acc : List Change) :
    List (Except Route53IpUpdateError (List Change)) → ZoneOutcome
  | [] => if acc.isEmpty then .noChanges else .submitted acc
  | r :: rest =>
    match r with
    | .ok changes => updateZoneAggregate (acc ++ changes) rest
    | .error e => .failed e

/-- `update_zone` after the per-hostname futures have produced their
results. -/
def update_zone (hostname_results : List (Except Route53IpUpdateError (List Change))) :
    ZoneOutcome :=
  updateZoneAggregate [] hostname_results

/-! ## The propagation poller (`update_route53_zone` loop,
src/update.rs lines 240-259)

Each `get_change` reply is an optional `ChangeInfo` (the `change_info`
field of the SDK output); the successive replies become an explicit list. -/

/-- Result of the propagation wait loop. -/
inductive PollResult where
  | ok
  | failed (e : Route53IpUpdateError)
  | outOfReplies
deriving DecidableEq, Repr

/-- The `loop` of `update_route53_zone`: `ci` is the current `ChangeInfo`,
`replies` the remaining `get_change` replies. -/
def pollChangeStatuses : ChangeInfo → List (Option ChangeInfo) → PollResult
  | ci, [] =>
    match ci.status with
    | none => .failed (.missingExpectedAwsReplyField "Status")
    | some .insync => .ok
    | some (.unknown status) => .failed (.unexpectedRoute53Status status)
    | some .pending => .outOfReplies
  | ci, reply :: rest =>
    match ci.status with
    | none => .failed (.missingExpectedAwsReplyField "Status")
    | some .insync => .ok
    | some (.unknown status) => .failed (.unexpectedRoute53Status status)
    | some .pending =>
      match reply with
      | none => .failed (.missingExpectedAwsReplyField "ChangeInfo")
      | some ci' => pollChangeStatuses ci' rest

/-! ## The record-set reader (`get_hostname_record_sets`,
src/update.rs lines 262-308) -/

/-- One `ListResourceRecordSets` reply, restricted to the fields the program
reads. -/
structure ListRrsOutput where
  resource_record_sets : Option (List ResourceRecordSet)
  is_truncated : Bool
  next_record_name : Option String
  next_record_type : Option RrType
deriving DecidableEq, Repr

/-- Result of the reader: `panicMissingCursor` marks reaching one of the
`.unwrap()` calls on lines 305-306 with an absent cursor field, and
`outOfPages` marks exhausting the modelled reply stream while a cursor was
still being followed. -/
inductive ReaderResult where
  | ok (records : List ResourceRecordSet)
  | panicMissingCursor
  | outOfPages
deriving DecidableEq, Repr

/-- The trailing-dot normalization of src/update.rs lines 271-275. -/
def hostnameDot (hostname : String) : String :=
  if hostname.endsWith "." then hostname else hostname ++ "."

/-- The `for record in records` loop (lines 287-296): `.inl` means the whole
page matched and scanning continues with the grown accumulator, `.inr` is the
early `return Ok(results)` on the first name mismatch. -/
def scanRecords (hd : String) (acc : List ResourceRecordSet) :
    List ResourceRecordSet → List ResourceRecordSet ⊕ List ResourceRecordSet
  | [] => .inl acc
  | record :: rest =>
    if record.name = some hd then scanRecords hd (acc ++ [record]) rest
    else .inr acc

/-- The page loop of `get_hostname_record_sets`. -/
def readPages (hd : String) (acc : List ResourceRecordSet) :
    List ListRrsOutput → ReaderResult
  | [] => .outOfPages
  | page :: rest =>
    let step :=
      match page.resource_record_sets with
      | some records => scanRecords hd acc records
      | none => .inl acc
    match step with
    | .inr results => .ok results
    | .inl acc' =>
      if !page.is_truncated then .ok acc'
      else
        match page.next_record_name, page.next_record_type with
        | some _, some _ => readPages hd acc' rest
        | _, _ => .panicMissingCursor

/-- `get_hostname_record_sets`, with the reply pages as an explicit list. -/
def get_hostname_record_sets (hostname : String) (pages : List ListRrsOutput) :
    ReaderResult :=
  readPages (hostnameDot hostname) [] pages

/-! ## Spec-side reader (§4.1 of the specification)

Modelled from the spec, for the refinement claim about the reader: return
exactly the in-order records whose name equals the trailing-dot-normalized
hostname, stop at the first differing name without following any further
cursor, and otherwise follow continuation cursors until a reply is not
truncated. -/

/-- The reader as the specification words it. -/
def readerSpec (hd : String) (acc : List ResourceRecordSet) :
    List ListRrsOutput → ReaderResult
  | [] => .outOfPages
  | page :: rest =>
    let records := page.resource_record_sets.getD []
    if records.all (fun r => r.name = some hd) then
      if !page.is_truncated then .ok (acc ++ records)
      else
        match page.next_record_name, page.next_record_type with
        | some _, some _ => readerSpec hd (acc ++ records) rest
        | _, _ => .panicMissingCursor
    else .ok (acc ++ records.takeWhile (fun r => r.name = some hd))

/-! ## Predicates used to state the claims -/

/-- An unrouted (no set-identifier) A record set. -/
def isUnroutedA (rrs : ResourceRecordSet) : Bool :=
  rrs.type == some RrType.a && rrs.set_identifier == none

/-- The up-to-date test of src/update.rs line 106 as a predicate: no set
identifier, parsed values equal to the desired IPv4 set, TTL equal to the
desired TTL. -/
def upToDateA (d4 : IpSet) (ttl : Int) (rrs : ResourceRecordSet) : Bool :=
  rrs.set_identifier == none &&
    (match get_ipaddrs_from_rrs rrs with
     | .ok s => eqIpSet s d4
     | .error _ => false) &&
    rrs.ttl == some ttl

/-- An unrouted A record set that is not up-to-date. -/
def unsatA (d4 : IpSet) (ttl : Int) (rrs : ResourceRecordSet) : Bool :=
  isUnroutedA rrs && !upToDateA d4 ttl rrs

/-- An Upsert change of type A. -/
def isUpsertA (c : Change) : Bool :=
  c.action == ChangeAction.upsert && c.resource_record_set.type == some RrType.a

/-- A Delete change of an unrouted, not up-to-date A record set. -/
def isDeleteUnsatA (d4 : IpSet) (ttl : Int) (c : Change) : Bool :=
  c.action == ChangeAction.delete && unsatA d4 ttl c.resource_record_set

/-- The specification's TTL precedence chain (§3): hostname-level override,
else zone-level default, else global default, else the hard-coded 300-second
fallback.  Stated from the spec's words, to compare with the nested
`unwrap_or` resolution the code performs. -/
def ttlPrecedence (hostname_ttl zone_ttl global_ttl : Option Ttl) : Ttl :=
  match hostname_ttl with
  | some t => t
  | none =>
    match zone_ttl with
    | some t => t
    | none =>
      match global_ttl with
      | some t => t
      | none => ⟨300⟩

/-! ## Helper lemmas about the diff-engine loop -/

lemma processRrs_append (hostname : String) (d4 d6 : IpSet) (ttl : Int)
    (l1 l2 : List ResourceRecordSet) :
    ∀ st, processRrs hostname d4 d6 ttl st (l1 ++ l2) =
      match processRrs hostname d4 d6 ttl st l1 with
      | .error e => .error e
      | .ok st1 => processRrs hostname d4 d6 ttl st1 l2 := by
  induction l1 with
  | nil => intro st; rfl
  | cons rrs rest ih =>
    intro st
    simp only [List.cons_append, processRrs]
    split
    · rfl
    · split
      · rfl
      · split
        · exact ih _
        · split
          · exact ih _
          · exact ih _
    · split
      · rfl
      · split
        · exact ih _
        · split
          · exact ih _
          · exact ih _
    · exact ih _
    · exact ih _

lemma processRrs_changes_prefix (hostname : String) (d4 d6 : IpSet) (ttl : Int)
    (l : List ResourceRecordSet) :
    ∀ st st', processRrs hostname d4 d6 ttl st l = .ok st' →
      ∃ tail, st'.changes = st.changes ++ tail := by
  induction l with
  | nil =>
    intro st st' h
    simp only [processRrs] at h
    cases h
    exact ⟨[], by simp⟩
  | cons rrs rest ih =>
    intro st st' h
    simp only [processRrs] at h
    split at h
    · cases h
    · split at h
      · cases h
      · split at h
        · exact ih { st with seen4 := true } _ h
        · split at h
          · obtain ⟨tail, ht⟩ := ih _ _ h
            exact ⟨deleteChange rrs :: tail, by simpa using ht⟩
          · obtain ⟨tail, ht⟩ := ih _ _ h
            exact ⟨upsertChangeA hostname ttl d4 :: tail, by simpa using ht⟩
    · split at h
      · cases h
      · split at h
        · exact ih { st with seen6 := true } _ h
        · split at h
          · obtain ⟨tail, ht⟩ := ih _ _ h
            exact ⟨deleteChange rrs :: tail, by simpa using ht⟩
          · obtain ⟨tail, ht⟩ := ih _ _ h
            exact ⟨upsertChangeAaaa hostname ttl d6 :: tail, by simpa using ht⟩
    · obtain ⟨tail, ht⟩ := ih _ _ h
      exact ⟨deleteChange rrs :: tail, by simpa using ht⟩
    · exact ih _ _ h

lemma processRrs_changes_mono (hostname : String) (d4 d6 : IpSet) (ttl : Int)
    (l : List ResourceRecordSet) (st st' : DiffState)
    (h : processRrs hostname d4 d6 ttl st l = .ok st') :
    ∀ c ∈ st.changes, c ∈ st'.changes := by
  obtain ⟨tail, ht⟩ := processRrs_changes_prefix hostname d4 d6 ttl l st st' h
  intro c hc
  rw [ht]
  exact List.mem_append_left _ hc

/-- Every change the loop can push satisfies `Q` provided `Q` holds of every
delete of an input record and of the two fresh upserts. -/
lemma processRrs_changes_prop (hostname : String) (d4 d6 : IpSet) (ttl : Int)
    (Q : Change → Prop)
    (hdel : ∀ rrs : ResourceRecordSet, Q (deleteChange rrs))
    (hup4 : Q (upsertChangeA hostname ttl d4))
    (hup6 : Q (upsertChangeAaaa hostname ttl d6))
    (l : List ResourceRecordSet) :
    ∀ st st', processRrs hostname d4 d6 ttl st l = .ok st' →
      (∀ c ∈ st.changes, Q c) → ∀ c ∈ st'.changes, Q c := by
  induction l with
  | nil =>
    intro st st' h hst
    simp only [processRrs] at h
    cases h
    exact hst
  | cons rrs rest ih =>
    intro st st' h hst
    simp only [processRrs] at h
    split at h
    · cases h
    · split at h
      · cases h
      · split at h
        · exact ih _ _ h hst
        · split at h
          · refine ih _ _ h ?_
            intro c hc
            rcases List.mem_append.mp hc with hc | hc
            · exact hst c hc
            · simp only [List.mem_singleton] at hc
              exact hc ▸ hdel rrs
          · refine ih _ _ h ?_
            intro c hc
            rcases List.mem_append.mp hc with hc | hc
            · exact hst c hc
            · simp only [List.mem_singleton] at hc
              exact hc ▸ hup4
    · split at h
      · cases h
      · split at h
        · exact ih _ _ h hst
        · split at h
          · refine ih _ _ h ?_
            intro c hc
            rcases List.mem_append.mp hc with hc | hc
            · exact hst c hc
            · simp only [List.mem_singleton] at hc
              exact hc ▸ hdel rrs
          · refine ih _ _ h ?_
            intro c hc
            rcases List.mem_append.mp hc with hc | hc
            · exact hst c hc
            · simp only [List.mem_singleton] at hc
              exact hc ▸ hup6
    · refine ih _ _ h ?_
      intro c hc
      rcases List.mem_append.mp hc with hc | hc
      · exact hst c hc
      · simp only [List.mem_singleton] at hc
        exact hc ▸ hdel rrs
    · exact ih _ _ h hst

lemma upToDateA_iff_cond (d4 : IpSet) (ttl : Int) (rrs : ResourceRecordSet)
    (s : IpSet) (hgi : get_ipaddrs_from_rrs rrs = .ok s) :
    upToDateA d4 ttl rrs = true ↔
      (rrs.set_identifier = none ∧ eqIpSet s d4 = true ∧ rrs.ttl = some ttl) := by
  simp [upToDateA, hgi, Bool.and_eq_true, beq_iff_eq, and_assoc]

lemma isUpsertA_deleteChange (rrs : ResourceRecordSet) :
    isUpsertA (deleteChange rrs) = false := by
  simp [isUpsertA, deleteChange]

lemma isDeleteUnsatA_deleteChange (d4 : IpSet) (ttl : Int) (rrs : ResourceRecordSet) :
    isDeleteUnsatA d4 ttl (deleteChange rrs) = unsatA d4 ttl rrs := by
  simp [isDeleteUnsatA, deleteChange]

lemma unsatA_of_not_a (d4 : IpSet) (ttl : Int) (rrs : ResourceRecordSet)
    (h : rrs.type ≠ some RrType.a) : unsatA d4 ttl rrs = false := by
  simp [unsatA, isUnroutedA, h]

/-- A refinement of `processRrs_changes_prop` that hands each delete case its
branch context: a Delete of an A record set is only ever pushed for a record
set that fails the up-to-date test, and every pushed Delete wraps a record
set of type A, AAAA or CNAME. -/
lemma processRrs_changes_prop_branches (hostname : String) (d4 d6 : IpSet) (ttl : Int)
    (Q : Change → Prop)
    (hdelA : ∀ rrs : ResourceRecordSet, rrs.type = some RrType.a →
      upToDateA d4 ttl rrs = false → Q (deleteChange rrs))
    (hdelAaaa : ∀ rrs : ResourceRecordSet, rrs.type = some RrType.aaaa → Q (deleteChange rrs))
    (hdelCname : ∀ rrs : ResourceRecordSet, rrs.type = some RrType.cname → Q (deleteChange rrs))
    (hup4 : Q (upsertChangeA hostname ttl d4))
    (hup6 : Q (upsertChangeAaaa hostname ttl d6)) :
    ∀ l : List ResourceRecordSet, ∀ st st',
      processRrs hostname d4 d6 ttl st l = .ok st' →
      (∀ c ∈ st.changes, Q c) → ∀ c ∈ st'.changes, Q c := by
  intro l
  induction l with
  | nil =>
    intro st st' h hst
    simp only [processRrs] at h
    injection h with h
    subst h
    exact hst
  | cons rrs rest ih =>
    intro st st' h hst
    simp only [processRrs] at h
    split at h
    · cases h
    · rename_i hty
      split at h
      · cases h
      · rename_i s hgi
        split at h
        · exact ih _ _ h hst
        · rename_i hcond
          have hutd : upToDateA d4 ttl rrs = false := by
            by_contra hu
            rw [Bool.not_eq_false] at hu
            exact hcond ((upToDateA_iff_cond d4 ttl rrs s hgi).mp hu)
          split at h
          · refine ih _ _ h ?_
            intro c hc
            rcases List.mem_append.mp hc with hc | hc
            · exact hst c hc
            · simp only [List.mem_singleton] at hc
              exact hc ▸ hdelA rrs hty hutd
          · refine ih _ _ h ?_
            intro c hc
            rcases List.mem_append.mp hc with hc | hc
            · exact hst c hc
            · simp only [List.mem_singleton] at hc
              exact hc ▸ hup4
    · rename_i hty
      split at h
      · cases h
      · split at h
        · exact ih _ _ h hst
        · split at h
          · refine ih _ _ h ?_
            intro c hc
            rcases List.mem_append.mp hc with hc | hc
            · exact hst c hc
            · simp only [List.mem_singleton] at hc
              exact hc ▸ hdelAaaa rrs hty
          · refine ih _ _ h ?_
            intro c hc
            rcases List.mem_append.mp hc with hc | hc
            · exact hst c hc
            · simp only [List.mem_singleton] at hc
              exact hc ▸ hup6
    · rename_i hty
      refine ih _ _ h ?_
      intro c hc
      rcases List.mem_append.mp hc with hc | hc
      · exact hst c hc
      · simp only [List.mem_singleton] at hc
        exact hc ▸ hdelCname rrs hty
    · exact ih _ _ h hst

/-- Every error of the diff-engine loop is either the missing-type protocol
violation or the address-extraction error of some A or AAAA record set of
the input. -/
lemma processRrs_error_source (hostname : String) (d4 d6 : IpSet) (ttl : Int) :
    ∀ l : List ResourceRecordSet, ∀ st e,
      processRrs hostname d4 d6 ttl st l = .error e →
      e = .missingExpectedAwsReplyField "Type" ∨
        ∃ rrs ∈ l, (rrs.type = some RrType.a ∨ rrs.type = some RrType.aaaa) ∧
          get_ipaddrs_from_rrs rrs = .error e := by
  intro l
  induction l with
  | nil => intro st e h; cases h
  | cons rrs rest ih =>
    intro st e h
    simp only [processRrs] at h
    split at h
    · injection h with h
      exact .inl h.symm
    · rename_i hty
      split at h
      · rename_i e' hgi
        injection h with h
        subst h
        exact .inr ⟨rrs, List.mem_cons_self _ _, .inl hty, hgi⟩
      · split at h
        · rcases ih _ _ h with h' | ⟨rrs', hm, hty', hgi'⟩
          · exact .inl h'
          · exact .inr ⟨rrs', List.mem_cons_of_mem _ hm, hty', hgi'⟩
        · split at h
          all_goals
            rcases ih _ _ h with h' | ⟨rrs', hm, hty', hgi'⟩
            · exact .inl h'
            · exact .inr ⟨rrs', List.mem_cons_of_mem _ hm, hty', hgi'⟩
    · rename_i hty
      split at h
      · rename_i e' hgi
        injection h with h
        subst h
        exact .inr ⟨rrs, List.mem_cons_self _ _, .inr hty, hgi⟩
      · split at h
        · rcases ih _ _ h with h' | ⟨rrs', hm, hty', hgi'⟩
          · exact .inl h'
          · exact .inr ⟨rrs', List.mem_cons_of_mem _ hm, hty', hgi'⟩
        · split at h
          all_goals
            rcases ih _ _ h with h' | ⟨rrs', hm, hty', hgi'⟩
            · exact .inl h'
            · exact .inr ⟨rrs', List.mem_cons_of_mem _ hm, hty', hgi'⟩
    · rcases ih _ _ h with h' | ⟨rrs', hm, hty', hgi'⟩
      · exact .inl h'
      · exact .inr ⟨rrs', List.mem_cons_of_mem _ hm, hty', hgi'⟩
    · rcases ih _ _ h with h' | ⟨rrs', hm, hty', hgi'⟩
      · exact .inl h'
      · exact .inr ⟨rrs', List.mem_cons_of_mem _ hm, hty', hgi'⟩

/-! ## Helper lemmas about the poller and the zone aggregator -/

lemma pollChangeStatuses_ok_insync (replies : List (Option ChangeInfo)) :
    ∀ ci : ChangeInfo, pollChangeStatuses ci replies = .ok →
      ci.status = some .insync ∨
        ∃ ci' : ChangeInfo, some ci' ∈ replies ∧ ci'.status = some .insync := by
  induction replies with
  | nil =>
    intro ci h
    simp only [pollChangeStatuses] at h
    split at h
    · cases h
    · exact .inl (by assumption)
    · cases h
    · cases h
  | cons reply rest ih =>
    intro ci h
    simp only [pollChangeStatuses] at h
    split at h
    · cases h
    · exact .inl (by assumption)
    · cases h
    · match reply, h with
      | some ci', h =>
        rcases ih ci' h with h' | ⟨ci'', hm, hs⟩
        · exact .inr ⟨ci', List.mem_cons_self _ _, h'⟩
        · exact .inr ⟨ci'', List.mem_cons_of_mem _ hm, hs⟩

lemma updateZoneAggregate_all_empty
    (results : List (Except Route53IpUpdateError (List Change))) :
    ∀ acc, (∀ r ∈ results, r = .ok []) →
      updateZoneAggregate acc results = if acc.isEmpty then .noChanges else .submitted acc := by
  induction results with
  | nil => intro acc _; rfl
  | cons r rest ih =>
    intro acc hall
    have hr : r = .ok [] := hall r (List.mem_cons_self _ _)
    subst hr
    simp only [updateZoneAggregate, List.append_nil]
    exact ih acc fun r' hm => hall r' (List.mem_cons_of_mem _ hm)

/-! ## Claim C1: idempotence of the diff engine -/

lemma processRrs_all_uptodate (hostname : String) (d4 d6 : IpSet) (ttl : Int) :
    ∀ l : List ResourceRecordSet,
      (∀ rrs ∈ l, rrs.set_identifier = none ∧
        ((rrs.type = some .a ∧
            (∃ s, get_ipaddrs_from_rrs rrs = .ok s ∧ eqIpSet s d4 = true) ∧
            rrs.ttl = some ttl) ∨
         (rrs.type = some .aaaa ∧
            (∃ s, get_ipaddrs_from_rrs rrs = .ok s ∧ eqIpSet s d6 = true) ∧
            rrs.ttl = some ttl))) →
      ∀ st : DiffState, processRrs hostname d4 d6 ttl st l =
        .ok ⟨st.seen4 || l.any (fun r => r.type == some RrType.a),
             st.seen6 || l.any (fun r => r.type == some RrType.aaaa),
             st.changes⟩ := by
  intro l
  induction l with
  | nil => intro _ st; simp [processRrs]
  | cons rrs rest ih =>
    intro hall st
    obtain ⟨hsid, hcase⟩ := hall rrs (List.mem_cons_self _ _)
    have ihrest := ih fun r hm => hall r (List.mem_cons_of_mem _ hm)
    rcases hcase with ⟨hty, ⟨s, hs, heq⟩, httl⟩ | ⟨hty, ⟨s, hs, heq⟩, httl⟩
    · simp only [processRrs, hty, hs]
      rw [if_pos ⟨hsid, heq, httl⟩, ihrest]
      simp [hty, (by decide : (RrType.a == RrType.aaaa) = false)]
    · simp only [processRrs, hty, hs]
      rw [if_pos ⟨hsid, heq, httl⟩, ihrest]
      simp [hty, (by decide : (RrType.aaaa == RrType.a) = false)]

/-- C1: if every existing record set is an unrouted A or AAAA record whose
parsed value set equals the corresponding desired set and whose TTL equals
the effective desired TTL, and each non-empty desired family has at least
one such record, then `get_changes_for_hostname` returns an empty change
sequence. -/
theorem idempotence_diff_engine (hostname_config : HostnameConfig)
    (ex : List ResourceRecordSet) (d4 d6 : IpSet) (dflt : Option Ttl)
    (hall : ∀ rrs ∈ ex, rrs.set_identifier = none ∧
      ((rrs.type = some .a ∧
          (∃ s, get_ipaddrs_from_rrs rrs = .ok s ∧ eqIpSet s d4 = true) ∧
          rrs.ttl = some (desiredTtlOf hostname_config dflt)) ∨
       (rrs.type = some .aaaa ∧
          (∃ s, get_ipaddrs_from_rrs rrs = .ok s ∧ eqIpSet s d6 = true) ∧
          rrs.ttl = some (desiredTtlOf hostname_config dflt))))
    (h4 : ipSetIsEmpty d4 = false → ∃ rrs ∈ ex, rrs.type = some RrType.a)
    (h6 : ipSetIsEmpty d6 = false → ∃ rrs ∈ ex, rrs.type = some RrType.aaaa) :
    get_changes_for_hostname hostname_config ex d4 d6 dflt = .ok [] := by
  have key := processRrs_all_uptodate hostname_config.get_hostname d4 d6
    (desiredTtlOf hostname_config dflt) ex hall
    ⟨ipSetIsEmpty d4, ipSetIsEmpty d6, []⟩
  have hseen4 : (ipSetIsEmpty d4 || ex.any (fun r => r.type == some RrType.a)) = true := by
    cases hd : ipSetIsEmpty d4
    · obtain ⟨rrs, hm, hty⟩ := h4 hd
      simp only [Bool.false_or, List.any_eq_true]
      exact ⟨rrs, hm, by simp [hty]⟩
    · simp
  have hseen6 : (ipSetIsEmpty d6 || ex.any (fun r => r.type == some RrType.aaaa)) = true := by
    cases hd : ipSetIsEmpty d6
    · obtain ⟨rrs, hm, hty⟩ := h6 hd
      simp only [Bool.false_or, List.any_eq_true]
      exact ⟨rrs, hm, by simp [hty]⟩
    · simp
  simp only [get_changes_for_hostname, key, hseen4, hseen6]
  simp

theorem idempotence_diff_engine_witness :
    get_changes_for_hostname (.hostnameOnly "host.example.com")
      [⟨some "host.example.com.", some .a, some 300, some [⟨some "1.1.1.1"⟩], none⟩]
      [.v4 1 1 1 1] [] none = .ok [] :=
  idempotence_diff_engine (.hostnameOnly "host.example.com")
    [⟨some "host.example.com.", some .a, some 300, some [⟨some "1.1.1.1"⟩], none⟩]
    [.v4 1 1 1 1] [] none
    (by
      intro rrs hm
      simp only [List.mem_singleton] at hm
      subst hm
      exact ⟨rfl, .inl ⟨rfl, ⟨[.v4 1 1 1 1], rfl, rfl⟩, rfl⟩⟩)
    (fun _ =>
      ⟨⟨some "host.example.com.", some .a, some 300, some [⟨some "1.1.1.1"⟩], none⟩,
        List.mem_singleton.mpr rfl, rfl⟩)
    (by intro h; simp [ipSetIsEmpty] at h)

/-! ## Claim C2: exactly one slot per (hostname, type) -/

lemma processRrs_upsertA_count (hostname : String) (d4 d6 : IpSet) (ttl : Int) :
    ∀ l : List ResourceRecordSet, ∀ st st',
      processRrs hostname d4 d6 ttl st l = .ok st' →
      st.changes.countP isUpsertA ≤ (if st.seen4 then 1 else 0) →
      st'.changes.countP isUpsertA ≤ (if st'.seen4 then 1 else 0) := by
  intro l
  induction l with
  | nil =>
    intro st st' h hst
    simp only [processRrs] at h
    injection h with h
    subst h
    exact hst
  | cons rrs rest ih =>
    intro st st' h hst
    simp only [processRrs] at h
    split at h
    · cases h
    · split at h
      · cases h
      · split at h
        · refine ih _ _ h ?_
          have : st.changes.countP isUpsertA ≤ 1 := le_trans hst (by split <;> omega)
          simpa using this
        · split at h
          · refine ih _ _ h ?_
            simpa [List.countP_append, List.countP_cons, isUpsertA_deleteChange] using hst
          · rename_i hc
            have hseen : st.seen4 = false := by
              by_contra hs
              rw [Bool.not_eq_false] at hs
              exact hc (by simp [hs])
            refine ih _ _ h ?_
            rw [hseen] at hst
            simp only [if_neg (Bool.false_ne_true), Nat.le_zero] at hst
            simp [List.countP_append, List.countP_cons, hst, isUpsertA, upsertChangeA, freshRrs]
    · split at h
      · cases h
      · split at h
        · refine ih _ _ h ?_
          simpa using hst
        · split at h
          · refine ih _ _ h ?_
            simpa [List.countP_append, List.countP_cons, isUpsertA_deleteChange] using hst
          · refine ih _ _ h ?_
            have : List.countP isUpsertA [upsertChangeAaaa hostname ttl d6] = 0 := by
              simp [isUpsertA, upsertChangeAaaa, freshRrs]
            simpa [List.countP_append, this] using hst
    · refine ih _ _ h ?_
      simpa [List.countP_append, List.countP_cons, isUpsertA_deleteChange] using hst
    · exact ih _ _ h hst

lemma processRrs_unsat_delete_count (hostname : String) (d4 d6 : IpSet) (ttl : Int) :
    ∀ l : List ResourceRecordSet, ∀ st st',
      processRrs hostname d4 d6 ttl st l = .ok st' →
      l.countP (unsatA d4 ttl) + st.changes.countP (isDeleteUnsatA d4 ttl)
        ≤ st'.changes.countP (isDeleteUnsatA d4 ttl) + (if st.seen4 then 0 else 1) := by
  intro l
  induction l with
  | nil =>
    intro st st' h
    simp only [processRrs] at h
    injection h with h
    subst h
    simp only [List.countP_nil]
    split <;> omega
  | cons rrs rest ih =>
    intro st st' h
    simp only [processRrs] at h
    split at h
    · cases h
    · rename_i hty
      split at h
      · cases h
      · rename_i s hgi
        split at h
        · rename_i hcond
          have hutd : upToDateA d4 ttl rrs = true := (upToDateA_iff_cond d4 ttl rrs s hgi).mpr hcond
          have hhd : unsatA d4 ttl rrs = false := by simp [unsatA, hutd]
          have := ih _ _ h
          simp only [List.countP_cons, hhd, if_neg] at *
          simp only [hhd, Bool.false_eq_true, if_false, Nat.add_zero] at *
          calc rest.countP (unsatA d4 ttl) + st.changes.countP (isDeleteUnsatA d4 ttl)
              ≤ st'.changes.countP (isDeleteUnsatA d4 ttl) + 0 := by simpa using this
            _ ≤ st'.changes.countP (isDeleteUnsatA d4 ttl) + (if st.seen4 then 0 else 1) := by
                split <;> omega
        · rename_i hcond
          have hutd : upToDateA d4 ttl rrs = false := by
            by_contra hu
            rw [Bool.not_eq_false] at hu
            exact hcond ((upToDateA_iff_cond d4 ttl rrs s hgi).mp hu)
          split at h
          · have := ih _ _ h
            by_cases hsid : rrs.set_identifier = none
            · have hhd : unsatA d4 ttl rrs = true := by
                simp [unsatA, isUnroutedA, hutd, hty, hsid]
              simp only [List.countP_cons, List.countP_append, hhd, if_pos,
                isDeleteUnsatA_deleteChange] at *
              simp only [hhd, if_true, List.countP_cons, List.countP_nil] at *
              omega
            · have hhd : unsatA d4 ttl rrs = false := by
                simp [unsatA, isUnroutedA, hsid]
              have hdel : List.countP (isDeleteUnsatA d4 ttl) [deleteChange rrs] = 0 := by
                simp [isDeleteUnsatA_deleteChange, List.countP_cons, hhd]
              simp only [List.countP_cons, List.countP_append, hhd, hdel,
                Bool.false_eq_true, if_false, Nat.add_zero] at *
              exact this
          · rename_i hc
            have hseen : st.seen4 = false := by
              by_contra hs
              rw [Bool.not_eq_false] at hs
              exact hc (by simp [hs])
            have hsid : rrs.set_identifier = none := by
              by_contra hs
              exact hc (by simp [Option.isSome_iff_ne_none.mpr hs])
            have hhd : unsatA d4 ttl rrs = true := by
              simp [unsatA, isUnroutedA, hutd, hty, hsid]
            have := ih _ _ h
            have hup : List.countP (isDeleteUnsatA d4 ttl) [upsertChangeA hostname ttl d4] = 0 := by
              simp [isDeleteUnsatA, upsertChangeA, List.countP_cons]
            simp only [List.countP_cons, List.countP_append, hhd, if_true, hup,
              Nat.add_zero, hseen, Bool.false_eq_true, if_false, if_neg] at *
            omega
    · rename_i hty
      have hhd : unsatA d4 ttl rrs = false :=
        unsatA_of_not_a d4 ttl rrs (by simp [hty])
      split at h
      · cases h
      · split at h
        · have := ih _ _ h
          simp only [List.countP_cons, hhd, Bool.false_eq_true, if_false, Nat.add_zero] at *
          exact this
        · split at h
          · have := ih _ _ h
            have hdel : List.countP (isDeleteUnsatA d4 ttl) [deleteChange rrs] = 0 := by
              simp [isDeleteUnsatA_deleteChange, List.countP_cons, hhd]
            simp only [List.countP_cons, List.countP_append, hhd, hdel,
              Bool.false_eq_true, if_false, Nat.add_zero] at *
            exact this
          · have := ih _ _ h
            have hup : List.countP (isDeleteUnsatA d4 ttl)
                [upsertChangeAaaa hostname ttl d6] = 0 := by
              simp [isDeleteUnsatA, upsertChangeAaaa, List.countP_cons]
            simp only [List.countP_cons, List.countP_append, hhd, hup,
              Bool.false_eq_true, if_false, Nat.add_zero] at *
            exact this
    · rename_i hty
      have hhd : unsatA d4 ttl rrs = false :=
        unsatA_of_not_a d4 ttl rrs (by simp [hty])
      have := ih _ _ h
      have hdel : List.countP (isDeleteUnsatA d4 ttl) [deleteChange rrs] = 0 := by
        simp [isDeleteUnsatA_deleteChange, List.countP_cons, hhd]
      simp only [List.countP_cons, List.countP_append, hhd, hdel,
        Bool.false_eq_true, if_false, Nat.add_zero] at *
      exact this
    · rename_i xo val hna hnaaaa hncname heqt
      have hhd : unsatA d4 ttl rrs = false := by
        refine unsatA_of_not_a d4 ttl rrs ?_
        rw [heqt]
        intro habs
        injection habs with habs
        exact hna habs
      have := ih _ _ h
      simp only [List.countP_cons, hhd, Bool.false_eq_true, if_false, Nat.add_zero] at *
      exact this

/-- C2 counterexample: the claim demands, for every input with at least two
existing unrouted A record sets, an Upsert for at most one of them and a
Delete for every one of the others.  With two identical, already up-to-date
unrouted A record sets the code emits no change at all: no record is
upserted, so "the others" are both records, yet the empty change list
contains no Delete for either. -/
theorem exactly_one_slot_counterexample :
    get_changes_for_hostname (.hostnameOnly "host.example.com")
      [⟨some "host.example.com.", some .a, some 300, some [⟨some "1.1.1.1"⟩], none⟩,
       ⟨some "host.example.com.", some .a, some 300, some [⟨some "1.1.1.1"⟩], none⟩]
      [.v4 1 1 1 1] [] none = .ok []
    ∧ List.countP isUnroutedA
        [⟨some "host.example.com.", some .a, some 300, some [⟨some "1.1.1.1"⟩], none⟩,
         (⟨some "host.example.com.", some .a, some 300, some [⟨some "1.1.1.1"⟩],
           none⟩ : ResourceRecordSet)] = 2 :=
  ⟨rfl, rfl⟩

/-- C2 (amended): for every input with at least two existing unrouted A
record sets, at most one A-type Upsert is emitted in total; every occurrence
of an unrouted A record set that is not exactly up-to-date (matching values
and TTL) receives a Delete, except for at most one — the occurrence consumed
by the Upsert slot; and no emitted Delete of an A-type record set targets an
up-to-date record set, so up-to-date records are never deleted.  (Symmetric
for AAAA.) -/
theorem exactly_one_slot_amended (hostname_config : HostnameConfig)
    (ex : List ResourceRecordSet) (d4 d6 : IpSet) (dflt : Option Ttl)
    (changes : List Change)
    (hN : 2 ≤ ex.countP isUnroutedA)
    (h : get_changes_for_hostname hostname_config ex d4 d6 dflt = .ok changes) :
    changes.countP isUpsertA ≤ 1
    ∧ ex.countP (unsatA d4 (desiredTtlOf hostname_config dflt)) ≤
        changes.countP (isDeleteUnsatA d4 (desiredTtlOf hostname_config dflt)) + 1
    ∧ ∀ c ∈ changes, c.action = .delete → c.resource_record_set.type = some RrType.a →
        upToDateA d4 (desiredTtlOf hostname_config dflt) c.resource_record_set = false := by
  simp only [get_changes_for_hostname] at h
  cases hp : processRrs hostname_config.get_hostname d4 d6
      (desiredTtlOf hostname_config dflt)
      ⟨ipSetIsEmpty d4, ipSetIsEmpty d6, []⟩ ex with
  | error e => rw [hp] at h; cases h
  | ok st =>
    rw [hp] at h
    injection h with h
    subst h
    have hu := processRrs_upsertA_count hostname_config.get_hostname d4 d6
      (desiredTtlOf hostname_config dflt) ex _ _ hp (by simp)
    have hd := processRrs_unsat_delete_count hostname_config.get_hostname d4 d6
      (desiredTtlOf hostname_config dflt) ex _ _ hp
    have hu46 : List.countP isUpsertA
        [upsertChangeA hostname_config.get_hostname (desiredTtlOf hostname_config dflt) d4,
         upsertChangeAaaa hostname_config.get_hostname (desiredTtlOf hostname_config dflt) d6]
        = 1 := by
      simp [isUpsertA, upsertChangeA, upsertChangeAaaa, freshRrs, List.countP_cons]
    have hu4 : List.countP isUpsertA
        [upsertChangeA hostname_config.get_hostname (desiredTtlOf hostname_config dflt) d4]
        = 1 := by
      simp [isUpsertA, upsertChangeA, freshRrs, List.countP_cons]
    have hu6 : List.countP isUpsertA
        [upsertChangeAaaa hostname_config.get_hostname (desiredTtlOf hostname_config dflt) d6]
        = 0 := by
      simp [isUpsertA, upsertChangeAaaa, freshRrs, List.countP_cons]
    have hc46 : List.countP (isDeleteUnsatA d4 (desiredTtlOf hostname_config dflt))
        [upsertChangeA hostname_config.get_hostname (desiredTtlOf hostname_config dflt) d4,
         upsertChangeAaaa hostname_config.get_hostname (desiredTtlOf hostname_config dflt) d6]
        = 0 := by
      simp [isDeleteUnsatA, upsertChangeA, upsertChangeAaaa, List.countP_cons]
    have hc4 : List.countP (isDeleteUnsatA d4 (desiredTtlOf hostname_config dflt))
        [upsertChangeA hostname_config.get_hostname (desiredTtlOf hostname_config dflt) d4]
        = 0 := by
      simp [isDeleteUnsatA, upsertChangeA, List.countP_cons]
    have hc6 : List.countP (isDeleteUnsatA d4 (desiredTtlOf hostname_config dflt))
        [upsertChangeAaaa hostname_config.get_hostname (desiredTtlOf hostname_config dflt) d6]
        = 0 := by
      simp [isDeleteUnsatA, upsertChangeAaaa, List.countP_cons]
    have hu1 : st.changes.countP isUpsertA ≤ 1 := le_trans hu (by split <;> omega)
    have hd' : ex.countP (unsatA d4 (desiredTtlOf hostname_config dflt)) ≤
        st.changes.countP (isDeleteUnsatA d4 (desiredTtlOf hostname_config dflt)) + 1 := by
      revert hd
      split <;> (intro hd; simp only [List.countP_nil] at hd; omega)
    refine ⟨?_, ?_, ?_⟩
    · split_ifs with h6 h4 h4
      · have hs4 : st.seen4 = false := by simpa using h4
        have hu0 : st.changes.countP isUpsertA = 0 := by
          rw [hs4] at hu
          simpa using hu
        rw [List.append_assoc, List.singleton_append, List.countP_append, hu0, hu46]
      · rw [List.countP_append, hu6, Nat.add_zero]
        exact hu1
      · have hs4 : st.seen4 = false := by simpa using h4
        have hu0 : st.changes.countP isUpsertA = 0 := by
          rw [hs4] at hu
          simpa using hu
        rw [List.countP_append, hu0, hu4]
      · exact hu1
    · split_ifs with h6 h4 h4
      · rw [List.append_assoc, List.singleton_append, List.countP_append, hc46, Nat.add_zero]
        exact hd'
      · rw [List.countP_append, hc6, Nat.add_zero]
        exact hd'
      · rw [List.countP_append, hc4, Nat.add_zero]
        exact hd'
      · exact hd'
    · have hq := processRrs_changes_prop_branches hostname_config.get_hostname d4 d6
        (desiredTtlOf hostname_config dflt)
        (fun c => c.action = .delete → c.resource_record_set.type = some RrType.a →
          upToDateA d4 (desiredTtlOf hostname_config dflt) c.resource_record_set = false)
        (fun rrs _ hutd _ _ => hutd)
        (fun rrs hty => by
          intro _ hty'
          simp [deleteChange, hty] at hty')
        (fun rrs hty => by
          intro _ hty'
          simp [deleteChange, hty] at hty')
        (by intro hdelete; simp [upsertChangeA] at hdelete)
        (by intro hdelete; simp [upsertChangeAaaa] at hdelete)
        ex _ _ hp (by simp)
      intro c hc hdelete hcty
      split_ifs at hc
      · simp only [List.mem_append, List.mem_singleton] at hc
        rcases hc with (hc | rfl) | rfl
        · exact hq c hc hdelete hcty
        · simp [upsertChangeA] at hdelete
        · simp [upsertChangeAaaa] at hdelete
      · simp only [List.mem_append, List.mem_singleton] at hc
        rcases hc with hc | rfl
        · exact hq c hc hdelete hcty
        · simp [upsertChangeAaaa] at hdelete
      · simp only [List.mem_append, List.mem_singleton] at hc
        rcases hc with hc | rfl
        · exact hq c hc hdelete hcty
        · simp [upsertChangeA] at hdelete
      · exact hq c hc hdelete hcty

theorem exactly_one_slot_amended_witness :
    List.countP isUpsertA
        [upsertChangeA "host.example.com" 300 [.v4 2 2 2 2],
         deleteChange ⟨some "host.example.com.", some .a, some 300,
           some [⟨some "8.8.8.8"⟩], none⟩] ≤ 1
    ∧ List.countP (unsatA [.v4 2 2 2 2]
          (desiredTtlOf (.hostnameOnly "host.example.com") none))
        [⟨some "host.example.com.", some .a, some 300, some [⟨some "9.9.9.9"⟩], none⟩,
         ⟨some "host.example.com.", some .a, some 300, some [⟨some "8.8.8.8"⟩], none⟩] ≤
      List.countP (isDeleteUnsatA [.v4 2 2 2 2]
          (desiredTtlOf (.hostnameOnly "host.example.com") none))
        [upsertChangeA "host.example.com" 300 [.v4 2 2 2 2],
         deleteChange ⟨some "host.example.com.", some .a, some 300,
           some [⟨some "8.8.8.8"⟩], none⟩] + 1 := by
  have T := exactly_one_slot_amended (.hostnameOnly "host.example.com")
    [⟨some "host.example.com.", some .a, some 300, some [⟨some "9.9.9.9"⟩], none⟩,
     ⟨some "host.example.com.", some .a, some 300, some [⟨some "8.8.8.8"⟩], none⟩]
    [.v4 2 2 2 2] [] none
    [upsertChangeA "host.example.com" 300 [.v4 2 2 2 2],
     deleteChange ⟨some "host.example.com.", some .a, some 300,
       some [⟨some "8.8.8.8"⟩], none⟩]
    (by decide) rfl
  exact ⟨T.1, T.2.1⟩

/-! ## Claim C3: foreign record sets (carrying a set identifier) -/

lemma processRrs_foreign_delete (hostname : String) (d4 d6 : IpSet) (ttl : Int) :
    ∀ l : List ResourceRecordSet, ∀ st st',
      processRrs hostname d4 d6 ttl st l = .ok st' →
      ∀ rrs ∈ l, rrs.set_identifier.isSome = true →
        (rrs.type = some .a ∨ rrs.type = some .aaaa ∨ rrs.type = some .cname) →
        deleteChange rrs ∈ st'.changes := by
  intro l
  induction l with
  | nil => intro st st' _ rrs hm; cases hm
  | cons head rest ih =>
    intro st st' h rrs hm hsid hty
    rcases List.mem_cons.mp hm with rfl | hm
    · rcases hty with hty | hty | hty
      · simp only [processRrs, hty] at h
        split at h
        · cases h
        · rename_i s hgi
          have hnc : ¬(rrs.set_identifier = none ∧ eqIpSet s d4 = true ∧ rrs.ttl = some ttl) := by
            rintro ⟨h1, -⟩
            rw [h1] at hsid
            simp at hsid
          have hpc : (st.seen4 || ipSetIsEmpty d4 || rrs.set_identifier.isSome) = true := by
            simp [hsid]
          rw [if_neg hnc, if_pos hpc] at h
          exact processRrs_changes_mono _ _ _ _ _ _ _ h _ (by simp)
      · simp only [processRrs, hty] at h
        split at h
        · cases h
        · rename_i s hgi
          have hnc : ¬(rrs.set_identifier = none ∧ eqIpSet s d6 = true ∧ rrs.ttl = some ttl) := by
            rintro ⟨h1, -⟩
            rw [h1] at hsid
            simp at hsid
          have hpc : (st.seen6 || ipSetIsEmpty d6 || rrs.set_identifier.isSome) = true := by
            simp [hsid]
          rw [if_neg hnc, if_pos hpc] at h
          exact processRrs_changes_mono _ _ _ _ _ _ _ h _ (by simp)
      · simp only [processRrs, hty] at h
        exact processRrs_changes_mono _ _ _ _ _ _ _ h _ (by simp)
    · simp only [processRrs] at h
      split at h
      · cases h
      · split at h
        · cases h
        · split at h
          · exact ih _ _ h rrs hm hsid hty
          · split at h
            · exact ih _ _ h rrs hm hsid hty
            · exact ih _ _ h rrs hm hsid hty
      · split at h
        · cases h
        · split at h
          · exact ih _ _ h rrs hm hsid hty
          · split at h
            · exact ih _ _ h rrs hm hsid hty
            · exact ih _ _ h rrs hm hsid hty
      · exact ih _ _ h rrs hm hsid hty
      · exact ih _ _ h rrs hm hsid hty

/-- C3 counterexample: the claim quantifies over every existing record set
carrying a set identifier, but the code only deletes foreign records of the
managed types (A, AAAA, CNAME); a TXT record set carrying a set identifier is
ignored, so no Delete of it is ever emitted — the change list here is
empty. -/
theorem foreign_record_removal_counterexample :
    get_changes_for_hostname (.hostnameOnly "host.example.com")
      [⟨some "host.example.com.", some .txt, some 60, some [⟨some "x"⟩], some "weighted"⟩]
      [] [] none = .ok []
    ∧ (⟨some "host.example.com.", some .txt, some 60, some [⟨some "x"⟩],
        some "weighted"⟩ : ResourceRecordSet).set_identifier.isSome = true :=
  ⟨rfl, rfl⟩

/-- C3 (amended): whenever `get_changes_for_hostname` succeeds, every
existing A, AAAA or CNAME record set that carries a set identifier receives a
Delete of that exact record set; no emitted Upsert carries a set identifier;
and every existing record set of any other type is left untouched — no
emitted change references it — even when it carries a set identifier. -/
theorem foreign_record_removal_amended (hostname_config : HostnameConfig)
    (ex : List ResourceRecordSet) (d4 d6 : IpSet) (dflt : Option Ttl)
    (changes : List Change)
    (h : get_changes_for_hostname hostname_config ex d4 d6 dflt = .ok changes) :
    (∀ rrs ∈ ex, rrs.set_identifier.isSome = true →
      (rrs.type = some .a ∨ rrs.type = some .aaaa ∨ rrs.type = some .cname) →
      deleteChange rrs ∈ changes)
    ∧ (∀ c ∈ changes, c.action = .upsert →
        c.resource_record_set.set_identifier = none)
    ∧ (∀ rrs ∈ ex, rrs.type ≠ some RrType.a → rrs.type ≠ some RrType.aaaa →
        rrs.type ≠ some RrType.cname →
        ∀ c ∈ changes, c.resource_record_set ≠ rrs) := by
  simp only [get_changes_for_hostname] at h
  cases hp : processRrs hostname_config.get_hostname d4 d6
      (desiredTtlOf hostname_config dflt)
      ⟨ipSetIsEmpty d4, ipSetIsEmpty d6, []⟩ ex with
  | error e => rw [hp] at h; cases h
  | ok st =>
    rw [hp] at h
    injection h with h
    subst h
    refine ⟨?_, ?_, ?_⟩
    · intro rrs hm hsid hty
      have hmem := processRrs_foreign_delete _ _ _ _ ex _ _ hp rrs hm hsid hty
      split_ifs <;> simp [List.mem_append, hmem]
    · intro c hc hup
      have hq := processRrs_changes_prop hostname_config.get_hostname d4 d6
        (desiredTtlOf hostname_config dflt)
        (fun c => c.action = .upsert → c.resource_record_set.set_identifier = none)
        (fun rrs => by intro habs; simp [deleteChange] at habs)
        (fun _ => rfl) (fun _ => rfl) ex _ _ hp (by simp)
      split_ifs at hc
      · simp only [List.mem_append, List.mem_singleton] at hc
        rcases hc with (hc | rfl) | rfl
        · exact hq c hc hup
        · rfl
        · rfl
      · simp only [List.mem_append, List.mem_singleton] at hc
        rcases hc with hc | rfl
        · exact hq c hc hup
        · rfl
      · simp only [List.mem_append, List.mem_singleton] at hc
        rcases hc with hc | rfl
        · exact hq c hc hup
        · rfl
      · exact hq c hc hup
    · have htypes := processRrs_changes_prop_branches hostname_config.get_hostname d4 d6
        (desiredTtlOf hostname_config dflt)
        (fun c => c.resource_record_set.type = some RrType.a ∨
          c.resource_record_set.type = some RrType.aaaa ∨
          c.resource_record_set.type = some RrType.cname)
        (fun rrs hty _ => .inl hty)
        (fun rrs hty => .inr (.inl hty))
        (fun rrs hty => .inr (.inr hty))
        (.inl rfl) (.inr (.inl rfl))
        ex _ _ hp (by simp)
      intro rrs _ h1 h2 h3 c hc heq
      have hctype : c.resource_record_set.type = some RrType.a ∨
          c.resource_record_set.type = some RrType.aaaa ∨
          c.resource_record_set.type = some RrType.cname := by
        split_ifs at hc
        · simp only [List.mem_append, List.mem_singleton] at hc
          rcases hc with (hc | rfl) | rfl
          · exact htypes c hc
          · exact .inl rfl
          · exact .inr (.inl rfl)
        · simp only [List.mem_append, List.mem_singleton] at hc
          rcases hc with hc | rfl
          · exact htypes c hc
          · exact .inr (.inl rfl)
        · simp only [List.mem_append, List.mem_singleton] at hc
          rcases hc with hc | rfl
          · exact htypes c hc
          · exact .inl rfl
        · exact htypes c hc
      rw [heq] at hctype
      rcases hctype with t | t | t
      · exact h1 t
      · exact h2 t
      · exact h3 t

theorem foreign_record_removal_amended_witness :
    deleteChange ⟨some "host.example.com.", some .a, some 300,
        some [⟨some "9.9.9.9"⟩], some "weighted"⟩ ∈
      [deleteChange ⟨some "host.example.com.", some .a, some 300,
          some [⟨some "9.9.9.9"⟩], some "weighted"⟩,
       upsertChangeA "host.example.com" 300 [.v4 2 2 2 2]] :=
  (foreign_record_removal_amended (.hostnameOnly "host.example.com")
    [⟨some "host.example.com.", some .a, some 300, some [⟨some "9.9.9.9"⟩], some "weighted"⟩]
    [.v4 2 2 2 2] [] none
    [deleteChange ⟨some "host.example.com.", some .a, some 300,
        some [⟨some "9.9.9.9"⟩], some "weighted"⟩,
     upsertChangeA "host.example.com" 300 [.v4 2 2 2 2]] rfl).1
    _ (List.mem_singleton.mpr rfl) rfl (.inl rfl)

/-! ## Claim C4: address parsing in the diff engine -/

lemma collectIpaddrs_error (l : List ResourceRecord) :
    ∀ acc e, collectIpaddrs acc l = .error e →
      ∃ rr ∈ l, ∃ v, rr.value = some v ∧ parseIpAddr v = none ∧
        e = .invalidIpAddr v := by
  induction l with
  | nil => intro acc e h; cases h
  | cons rr rest ih =>
    intro acc e h
    simp only [collectIpaddrs] at h
    cases hv : rr.value with
    | none =>
      simp only [hv] at h
      obtain ⟨rr', hm, v, hval, hbad, he⟩ := ih _ _ h
      exact ⟨rr', List.mem_cons_of_mem _ hm, v, hval, hbad, he⟩
    | some v =>
      simp only [hv] at h
      cases hp : parseIpAddr v with
      | some ip =>
        simp only [hp] at h
        obtain ⟨rr', hm, v', hval, hbad, he⟩ := ih _ _ h
        exact ⟨rr', List.mem_cons_of_mem _ hm, v', hval, hbad, he⟩
      | none =>
        simp only [hp] at h
        injection h with h
        exact ⟨rr, List.mem_cons_self _ _, v, hv, hp, h.symm⟩

lemma collectIpaddrs_ok_of_all (l : List ResourceRecord) :
    ∀ acc, (∀ rr ∈ l, ∀ v, rr.value = some v → (parseIpAddr v).isSome = true) →
      ∃ s, collectIpaddrs acc l = .ok s := by
  induction l with
  | nil => intro acc _; exact ⟨acc, rfl⟩
  | cons rr rest ih =>
    intro acc hall
    simp only [collectIpaddrs]
    cases hv : rr.value with
    | none =>
      simp only [hv]
      exact ih _ fun rr' hm v hval => hall rr' (List.mem_cons_of_mem _ hm) v hval
    | some v =>
      simp only [hv]
      have hs := hall rr (List.mem_cons_self _ _) v hv
      cases hp : parseIpAddr v with
      | none => rw [hp] at hs; cases hs
      | some ip =>
        simp only [hp]
        exact ih _ fun rr' hm v' hval => hall rr' (List.mem_cons_of_mem _ hm) v' hval

lemma collectIpaddrs_error_of_bad (l : List ResourceRecord) :
    ∀ acc, (∃ rr ∈ l, ∃ v, rr.value = some v ∧ parseIpAddr v = none) →
      ∃ e, collectIpaddrs acc l = .error e := by
  induction l with
  | nil => rintro acc ⟨rr, hm, -⟩; cases hm
  | cons rr rest ih =>
    rintro acc ⟨rr', hm, v, hval, hbad⟩
    simp only [collectIpaddrs]
    rcases List.mem_cons.mp hm with rfl | hm
    · simp only [hval, hbad]
      exact ⟨.invalidIpAddr v, rfl⟩
    · cases hv : rr.value with
      | none =>
        simp only [hv]
        exact ih _ ⟨rr', hm, v, hval, hbad⟩
      | some v' =>
        simp only [hv]
        cases hp : parseIpAddr v' with
        | none =>
          simp only [hp]
          exact ⟨.invalidIpAddr v', rfl⟩
        | some ip =>
          simp only [hp]
          exact ih _ ⟨rr', hm, v, hval, hbad⟩

/-- C4 counterexample: the claim says an A record containing an IPv6 literal
is rejected with the `InvalidAddress` error.  `"::1"` is not an IPv4
literal, yet `get_changes_for_hostname` on an A record containing it
succeeds: `get_ipaddrs_from_rrs` parses values with `parse::<IpAddr>()`,
which accepts either family and never checks the value against the record's
own type. -/
theorem family_mismatch_counterexample :
    parse_ipv4 "::1" = none
    ∧ (get_changes_for_hostname (.hostnameOnly "host.example.com")
        [⟨some "host.example.com.", some .a, some 300, some [⟨some "::1"⟩], none⟩]
        [.v4 1 2 3 4] [] none).isOk = true :=
  ⟨rfl, rfl⟩

/-- `get_ipaddrs_from_rrs` succeeds exactly when every literal value of the
record set parses as an IP address of either family, and every failure is
`InvalidIpAddr v` for some value `v` that parses as neither family. -/
lemma get_ipaddrs_from_rrs_spec (rrs : ResourceRecordSet) :
    ((get_ipaddrs_from_rrs rrs).isOk = true ↔
      ∀ rr ∈ rrs.resource_records.getD [], ∀ v, rr.value = some v →
        (parseIpAddr v).isSome = true)
    ∧ (∀ e, get_ipaddrs_from_rrs rrs = .error e →
        ∃ rr ∈ rrs.resource_records.getD [], ∃ v, rr.value = some v ∧
          parseIpAddr v = none ∧ e = .invalidIpAddr v) := by
  cases hrr : rrs.resource_records with
  | none =>
    refine ⟨?_, ?_⟩
    · simp [get_ipaddrs_from_rrs, hrr, Except.isOk, Except.toBool]
    · intro e h
      simp [get_ipaddrs_from_rrs, hrr] at h
  | some records =>
    simp only [get_ipaddrs_from_rrs, hrr, Option.getD_some]
    refine ⟨⟨?_, ?_⟩, ?_⟩
    · intro hok rr hm v hval
      by_contra hbad
      have hnone : parseIpAddr v = none := by
        cases hpp : parseIpAddr v with
        | none => rfl
        | some ip => simp [hpp] at hbad
      obtain ⟨e, he⟩ := collectIpaddrs_error_of_bad records [] ⟨rr, hm, v, hval, hnone⟩
      rw [he] at hok
      simp [Except.isOk, Except.toBool] at hok
    · intro hall
      obtain ⟨s, hs⟩ := collectIpaddrs_ok_of_all records [] hall
      rw [hs]
      rfl
    · intro e he
      exact collectIpaddrs_error records [] e he

/-- C4 (amended): `get_changes_for_hostname` fails with `InvalidIpAddr v`
only when some A or AAAA record set of the input contains the literal `v`
and `v` parses as neither an IPv4 nor an IPv6 address; conversely, when the
record sets before an A or AAAA record set process without error and
extracting that record set's addresses fails, the whole function fails with
exactly that extraction error; and address extraction fails exactly when
some value parses as neither family — so a value of the wrong family for
the record's own type is never rejected. -/
theorem invalid_address_family_untested (hostname_config : HostnameConfig)
    (ex : List ResourceRecordSet) (d4 d6 : IpSet) (dflt : Option Ttl) :
    (∀ v : String, get_changes_for_hostname hostname_config ex d4 d6 dflt =
        .error (.invalidIpAddr v) →
      ∃ rrs ∈ ex, (rrs.type = some RrType.a ∨ rrs.type = some RrType.aaaa) ∧
        ∃ rr ∈ rrs.resource_records.getD [], rr.value = some v ∧ parseIpAddr v = none)
    ∧ (∀ (pre post : List ResourceRecordSet) (rrs : ResourceRecordSet) (st : DiffState)
        (e : Route53IpUpdateError),
        processRrs hostname_config.get_hostname d4 d6 (desiredTtlOf hostname_config dflt)
          ⟨ipSetIsEmpty d4, ipSetIsEmpty d6, []⟩ pre = .ok st →
        (rrs.type = some RrType.a ∨ rrs.type = some RrType.aaaa) →
        get_ipaddrs_from_rrs rrs = .error e →
        get_changes_for_hostname hostname_config (pre ++ rrs :: post) d4 d6 dflt = .error e)
    ∧ (∀ rrs : ResourceRecordSet,
        ((get_ipaddrs_from_rrs rrs).isOk = true ↔
          ∀ rr ∈ rrs.resource_records.getD [], ∀ v, rr.value = some v →
            (parseIpAddr v).isSome = true)
        ∧ ∀ e, get_ipaddrs_from_rrs rrs = .error e →
            ∃ rr ∈ rrs.resource_records.getD [], ∃ v, rr.value = some v ∧
              parseIpAddr v = none ∧ e = .invalidIpAddr v) := by
  refine ⟨?_, ?_, fun rrs => get_ipaddrs_from_rrs_spec rrs⟩
  · intro v h
    simp only [get_changes_for_hostname] at h
    cases hp : processRrs hostname_config.get_hostname d4 d6
        (desiredTtlOf hostname_config dflt)
        ⟨ipSetIsEmpty d4, ipSetIsEmpty d6, []⟩ ex with
    | ok st => rw [hp] at h; cases h
    | error e =>
      rw [hp] at h
      injection h with h
      subst h
      rcases processRrs_error_source _ _ _ _ ex _ _ hp with h' | ⟨rrs, hm, hty, hgi⟩
      · cases h'
      · obtain ⟨rr, hrm, v', hval, hparse, he⟩ := (get_ipaddrs_from_rrs_spec rrs).2 _ hgi
        injection he with he
        subst he
        exact ⟨rrs, hm, hty, rr, hrm, hval, hparse⟩
  · intro pre post rrs st e hpre hty hgi
    simp only [get_changes_for_hostname, processRrs_append, hpre]
    rcases hty with hty | hty
    · simp [processRrs, hty, hgi]
    · simp [processRrs, hty, hgi]

theorem invalid_address_family_untested_witness :
    get_changes_for_hostname (.hostnameOnly "host.example.com")
      [⟨some "host.example.com.", some .a, some 300, some [⟨some "nope"⟩], none⟩]
      [] [] none = .error (.invalidIpAddr "nope") :=
  (invalid_address_family_untested (.hostnameOnly "host.example.com")
    [⟨some "host.example.com.", some .a, some 300, some [⟨some "nope"⟩], none⟩]
    [] [] none).2.1 [] []
    ⟨some "host.example.com.", some .a, some 300, some [⟨some "nope"⟩], none⟩
    ⟨true, true, []⟩ (.invalidIpAddr "nope") rfl (.inl rfl) rfl

/-! ## Claim C5: the record-set reader returns the matching prefix -/

lemma scanRecords_spec (hd : String) (records : List ResourceRecordSet) :
    ∀ acc, scanRecords hd acc records =
      if records.all (fun r => r.name = some hd) then .inl (acc ++ records)
      else .inr (acc ++ records.takeWhile (fun r => r.name = some hd)) := by
  induction records with
  | nil => intro acc; simp [scanRecords]
  | cons r rest ih =>
    intro acc
    simp only [scanRecords]
    by_cases h : r.name = some hd
    · rw [if_pos h, ih]
      by_cases hall : (rest.all fun r => decide (r.name = some hd)) = true
      · simp [h, hall, List.all_cons]
      · rw [Bool.not_eq_true] at hall
        simp [h, hall, List.all_cons, List.takeWhile_cons]
    · rw [if_neg h]
      simp [h, List.all_cons, List.takeWhile_cons]

/-- C5: the record-set reader equals its specification: it returns exactly
the in-order records whose name equals the trailing-dot-normalized hostname,
stopping at the first record whose name differs (without following any
further cursor), and otherwise follows continuation cursors until a reply
reports the listing is not truncated. -/
theorem record_set_reader_prefix_rule (hostname : String) (pages : List ListRrsOutput) :
    get_hostname_record_sets hostname pages = readerSpec (hostnameDot hostname) [] pages := by
  suffices h : ∀ (ps : List ListRrsOutput) (acc : List ResourceRecordSet),
      readPages (hostnameDot hostname) acc ps = readerSpec (hostnameDot hostname) acc ps from
    h pages []
  intro ps
  induction ps with
  | nil => intro acc; rfl
  | cons page rest ih =>
    intro acc
    simp only [readPages, readerSpec]
    cases hrr : page.resource_record_sets with
    | none =>
      simp only [Option.getD_none, List.all_nil, if_true, List.append_nil]
      cases htr : page.is_truncated
      · simp
      · simp only [Bool.not_true, Bool.false_eq_true, if_false]
        cases page.next_record_name <;> cases page.next_record_type <;> simp [ih]
    | some records =>
      simp only [Option.getD_some]
      rw [scanRecords_spec]
      by_cases hall : (records.all fun r => decide (r.name = some (hostnameDot hostname))) = true
      · rw [if_pos hall, if_pos hall]
        cases htr : page.is_truncated
        · simp
        · simp only [Bool.not_true, Bool.false_eq_true, if_false]
          cases page.next_record_name <;> cases page.next_record_type <;> simp [ih]
      · rw [if_neg hall, if_neg hall]

/-! ## Claim C6: TTL precedence -/

/-- C6: the effective TTL computed once per hostname
(`hostname_config.get_ttl().unwrap_or(default_ttl.unwrap_or(DEFAULT_TTL))`,
with `default_ttl` already resolved by `update_zone` from the zone-level and
global defaults) equals the spec's precedence chain, and every Upsert emitted
for the hostname carries exactly that TTL.  The up-to-date comparison uses
the same value, as it is resolved once and threaded through `processRrs`. -/
theorem ttl_precedence_resolution (hostname_config : HostnameConfig)
    (zone_ttl global_ttl : Option Ttl) (ex : List ResourceRecordSet)
    (d4 d6 : IpSet) (changes : List Change) :
    desiredTtlOf hostname_config (updateZoneDefaultTtl zone_ttl global_ttl) =
      (ttlPrecedence hostname_config.get_ttl zone_ttl global_ttl).seconds
    ∧ (get_changes_for_hostname hostname_config ex d4 d6
        (updateZoneDefaultTtl zone_ttl global_ttl) = .ok changes →
      ∀ c ∈ changes, c.action = .upsert →
        c.resource_record_set.ttl =
          some (ttlPrecedence hostname_config.get_ttl zone_ttl global_ttl).seconds) := by
  have h1 : desiredTtlOf hostname_config (updateZoneDefaultTtl zone_ttl global_ttl) =
      (ttlPrecedence hostname_config.get_ttl zone_ttl global_ttl).seconds := by
    cases hh : hostname_config.get_ttl <;> cases zone_ttl <;> cases global_ttl <;>
      simp [desiredTtlOf, updateZoneDefaultTtl, ttlPrecedence, DEFAULT_TTL, hh]
  refine ⟨h1, fun h c hc hup => ?_⟩
  rw [← h1]
  simp only [get_changes_for_hostname] at h
  cases hp : processRrs hostname_config.get_hostname d4 d6
      (desiredTtlOf hostname_config (updateZoneDefaultTtl zone_ttl global_ttl))
      ⟨ipSetIsEmpty d4, ipSetIsEmpty d6, []⟩ ex with
  | error e => rw [hp] at h; cases h
  | ok st =>
    rw [hp] at h
    injection h with h
    subst h
    have hq := processRrs_changes_prop hostname_config.get_hostname d4 d6
      (desiredTtlOf hostname_config (updateZoneDefaultTtl zone_ttl global_ttl))
      (fun c => c.action = .upsert → c.resource_record_set.ttl =
        some (desiredTtlOf hostname_config (updateZoneDefaultTtl zone_ttl global_ttl)))
      (fun rrs => by intro habs; simp [deleteChange] at habs)
      (fun _ => rfl) (fun _ => rfl) ex _ _ hp (by simp)
    split_ifs at hc
    · simp only [List.mem_append, List.mem_singleton] at hc
      rcases hc with (hc | rfl) | rfl
      · exact hq c hc hup
      · rfl
      · rfl
    · simp only [List.mem_append, List.mem_singleton] at hc
      rcases hc with hc | rfl
      · exact hq c hc hup
      · rfl
    · simp only [List.mem_append, List.mem_singleton] at hc
      rcases hc with hc | rfl
      · exact hq c hc hup
      · rfl
    · exact hq c hc hup

theorem ttl_precedence_resolution_witness :
    desiredTtlOf (.hostnameAndTtl "host.example.com" ⟨120⟩)
        (updateZoneDefaultTtl (some ⟨60⟩) (some ⟨30⟩)) =
      (ttlPrecedence (HostnameConfig.hostnameAndTtl "host.example.com" ⟨120⟩).get_ttl
        (some ⟨60⟩) (some ⟨30⟩)).seconds
    ∧ (upsertChangeA "host.example.com" 120 [.v4 2 2 2 2]).resource_record_set.ttl =
        some (ttlPrecedence (HostnameConfig.hostnameAndTtl "host.example.com" ⟨120⟩).get_ttl
          (some ⟨60⟩) (some ⟨30⟩)).seconds :=
  ⟨(ttl_precedence_resolution (.hostnameAndTtl "host.example.com" ⟨120⟩)
      (some ⟨60⟩) (some ⟨30⟩) [] [.v4 2 2 2 2] [] []).1,
   (ttl_precedence_resolution (.hostnameAndTtl "host.example.com" ⟨120⟩)
      (some ⟨60⟩) (some ⟨30⟩) [] [.v4 2 2 2 2] []
      [upsertChangeA "host.example.com" 120 [.v4 2 2 2 2]]).2 rfl
      _ (List.mem_singleton.mpr rfl) rfl⟩

/-! ## Claim C7: poller terminal behaviour -/

/-- C7: in the propagation wait loop, a reported `Unknown(raw)` status
terminates with `UnexpectedRoute53Status raw` (uniformly in the remaining
replies, so no further status fetch is issued), a reply with no status
terminates with `MissingExpectedAwsReplyField "Status"`, an `Insync` status
returns success, and success is returned only when a reported status was
`Insync`. -/
theorem poller_terminal_statuses (ci : ChangeInfo) (replies : List (Option ChangeInfo))
    (raw : String) :
    (ci.status = some (.unknown raw) →
      pollChangeStatuses ci replies = .failed (.unexpectedRoute53Status raw))
    ∧ (ci.status = none →
      pollChangeStatuses ci replies = .failed (.missingExpectedAwsReplyField "Status"))
    ∧ (ci.status = some .insync → pollChangeStatuses ci replies = .ok)
    ∧ (pollChangeStatuses ci replies = .ok →
      ci.status = some .insync ∨
        ∃ ci' : ChangeInfo, some ci' ∈ replies ∧ ci'.status = some .insync) := by
  refine ⟨fun h => ?_, fun h => ?_, fun h => ?_, pollChangeStatuses_ok_insync replies ci⟩
  · cases replies <;> simp [pollChangeStatuses, h]
  · cases replies <;> simp [pollChangeStatuses, h]
  · cases replies <;> simp [pollChangeStatuses, h]

theorem poller_terminal_statuses_witness :
    pollChangeStatuses ⟨some "C1", some (.unknown "REVERTED")⟩
        [some ⟨some "C1", some .insync⟩] = .failed (.unexpectedRoute53Status "REVERTED")
    ∧ ((⟨some "C1", some .pending⟩ : ChangeInfo).status = some .insync ∨
        ∃ ci' : ChangeInfo,
          some ci' ∈ [some (⟨some "C1", some .insync⟩ : ChangeInfo)] ∧
            ci'.status = some .insync) :=
  ⟨(poller_terminal_statuses ⟨some "C1", some (.unknown "REVERTED")⟩
      [some ⟨some "C1", some .insync⟩] "REVERTED").1 rfl,
   (poller_terminal_statuses ⟨some "C1", some .pending⟩
      [some ⟨some "C1", some .insync⟩] "x").2.2.2 rfl⟩

/-! ## Claim C8: a no-op zone skips submission -/

/-- C8: when every hostname diff succeeds with an empty change list (so the
aggregated change list is empty), `update_zone` returns the `noChanges`
success outcome; only the `submitted` outcome builds a `ChangeBatch` and
invokes `update_route53_zone` (submission and polling). -/
theorem noop_zone_skips_submission
    (hostname_results : List (Except Route53IpUpdateError (List Change)))
    (h : ∀ r ∈ hostname_results, r = .ok []) :
    update_zone hostname_results = .noChanges := by
  unfold update_zone
  rw [updateZoneAggregate_all_empty _ _ h]
  rfl

theorem noop_zone_skips_submission_witness :
    update_zone [.ok [], .ok []] = .noChanges :=
  noop_zone_skips_submission [.ok [], .ok []] (by
    intro r hm
    simp only [List.mem_cons, List.not_mem_nil, or_false] at hm
    rcases hm with rfl | rfl <;> rfl)

/-! ## Claim C9: pagination cursors are trusted -/

/-- C9: when a reply signals truncation, the reader unconditionally
`.unwrap()`s the `next_record_name` and `next_record_type` cursor fields; on
a truncated reply with an absent cursor field the unwrap is reached (modelled
as the `panicMissingCursor` outcome), both when the name cursor is missing
and when only the type cursor is missing — the function is not total over
such replies. -/
theorem pagination_cursor_trust_unguarded :
    get_hostname_record_sets "host.example.com"
      [⟨some [], true, none, none⟩] = .panicMissingCursor
    ∧ get_hostname_record_sets "host.example.com"
      [⟨some [], true, some "host.example.com.", none⟩] = .panicMissingCursor :=
  ⟨rfl, rfl⟩

/-! ## Claim C10: a record set with no type field -/

/-- C10 counterexample: the claim says that whenever some record set has no
type field the diff fails with `MissingExpectedAwsReplyField "Type"`; here
the existing sequence contains a type-less record set, yet the function fails
with `InvalidIpAddr "nope"` instead, because an earlier A record's value
fails to parse before the type-less record is reached. -/
theorem missing_type_counterexample :
    get_changes_for_hostname (.hostnameOnly "host.example.com")
      [⟨some "host.example.com.", some .a, some 300, some [⟨some "nope"⟩], none⟩,
       ⟨some "host.example.com.", none, none, none, none⟩] [] [] none =
      .error (.invalidIpAddr "nope")
    ∧ Route53IpUpdateError.invalidIpAddr "nope" ≠ .missingExpectedAwsReplyField "Type" :=
  ⟨rfl, by simp⟩

/-- C10 (amended): if a record set with no type field is reached — that is,
every record set before it processes without error — then
`get_changes_for_hostname` fails immediately with
`MissingExpectedAwsReplyField "Type"`, regardless of the record sets after
it, and produces no change list. -/
theorem missing_type_protocol_violation (hostname_config : HostnameConfig)
    (pre post : List ResourceRecordSet) (rrs : ResourceRecordSet)
    (d4 d6 : IpSet) (dflt : Option Ttl) (st : DiffState)
    (hty : rrs.type = none)
    (hpre : processRrs hostname_config.get_hostname d4 d6 (desiredTtlOf hostname_config dflt)
      ⟨ipSetIsEmpty d4, ipSetIsEmpty d6, []⟩ pre = .ok st) :
    get_changes_for_hostname hostname_config (pre ++ rrs :: post) d4 d6 dflt =
      .error (.missingExpectedAwsReplyField "Type") := by
  simp only [get_changes_for_hostname, processRrs_append, hpre]
  simp [processRrs, hty]

theorem missing_type_protocol_violation_witness :
    get_changes_for_hostname (.hostnameOnly "host.example.com")
      [⟨some "host.example.com.", none, none, none, none⟩] [] [] none =
      .error (.missingExpectedAwsReplyField "Type") :=
  missing_type_protocol_violation (.hostnameOnly "host.example.com") [] []
    ⟨some "host.example.com.", none, none, none, none⟩ [] [] none
    ⟨true, true, []⟩ rfl rfl

end Route53
